import Mathlib

/-!
# Verification of the DocuAI incremental analysis pipeline

Shallow embedding of `rag_documentation_system.py` (class `CodebaseRAG`).

Modelling conventions:
* Paths are lists of segments (`List String`); the joined string form uses
  `"/"` as separator, matching the POSIX behaviour of `pathlib`/`os.walk`.
* The external generation capability `ask_llm` (imported from the out-of-repo
  module `llm`) is a parameter of type `String → Except String String`; a
  `.error` value models a raised exception.
* `hashlib.md5(...).hexdigest()` is a parameter `md5hex : String → String`;
  its internals are irrelevant to the pipeline, only that it is a pure
  function of the file bytes.
* The file system is explicit: each candidate file carries two readability
  flags, one for the binary read in `get_file_hash` and one for the text read
  in `analyze_file` (the two `open` calls in the source are independent).
* The thread pool's nondeterministic `as_completed` order is an explicit
  `order` parameter, constrained in theorems to be a permutation of the
  scanned file list; `max_workers` influences only which orders can occur.
-/

/-- Glob matching as performed by Python's `fnmatch.fnmatch` on POSIX
(`os.path.normcase` is the identity there): `*` matches any run of
characters, `?` matches one character, every other character matches
itself.  The configured `ignore_patterns` contain no `[...]` classes, so
character classes are not modelled.  A fuel argument keeps the recursion
structural; `2 * pattern.length + s.length + 1` steps always suffice
because every recursive call shrinks that measure. -/
def globMatchFuel : Nat → List Char → List Char → Bool
  | 0, _, _ => false
  | _ + 1, [], s => s.isEmpty
  | fuel + 1, '*' :: ps, [] => globMatchFuel fuel ps []
  | fuel + 1, '*' :: ps, c :: cs =>
      globMatchFuel fuel ps (c :: cs) || globMatchFuel fuel ('*' :: ps) cs
  | _ + 1, '?' :: _, [] => false
  | fuel + 1, '?' :: ps, _ :: cs => globMatchFuel fuel ps cs
  | _ + 1, _ :: _, [] => false
  | fuel + 1, p :: ps, c :: cs => (p == c) && globMatchFuel fuel ps cs

/-- `fnmatch.fnmatch(name, pattern)` on POSIX. -/
def fnmatch (name pattern : String) : Bool :=
  globMatchFuel (2 * pattern.length + name.length + 1) pattern.toList name.toList

/-- `self.ignore_patterns` from `CodebaseRAG.__init__`. -/
def ignore_patterns : List String :=
  ["__pycache__", ".git", ".vscode", ".idea", "node_modules",
   "*.pyc", "*.pyo", "*.pyd", ".DS_Store", "Thumbs.db",
   ".env", ".env.*", "*.log", "*.tmp", "*.cache",
   ".rag_cache", "venv", "env", ".venv"]

/-- `self.code_extensions` from `CodebaseRAG.__init__`. -/
def code_extensions : List String :=
  [".py", ".js", ".ts", ".jsx", ".tsx", ".java", ".cpp", ".c", ".h",
   ".cs", ".php", ".rb", ".go", ".rs", ".swift", ".kt", ".scala",
   ".html", ".css", ".scss", ".sass", ".vue", ".svelte", ".sql",
   ".sh", ".bash", ".ps1", ".yaml", ".yml", ".json", ".xml", ".toml"]

/-- `str.lower()` restricted to the ASCII case mapping (all configured
patterns and extensions are ASCII). -/
def lowerStr (s : String) : String :=
  (s.toList.map Char.toLower).asString

/-- `Path.name`: the final path segment. -/
def segsName (segs : List String) : String :=
  segs.getLastD ""

/-- `str(path)`: the joined string form of a path. -/
def segsStr (segs : List String) : String :=
  String.intercalate "/" segs

/-- `CodebaseRAG.should_ignore`: the path's final segment or its full string
form matches one of the ignore patterns. -/
def should_ignore (segs : List String) : Bool :=
  ignore_patterns.any fun pattern =>
    fnmatch (segsName segs) pattern || fnmatch (segsStr segs) pattern

/-- Index of the last `'.'` in a list of characters, if any. -/
def lastDotIdx : List Char → Option Nat
  | [] => none
  | c :: cs =>
      match lastDotIdx cs with
      | some j => some (j + 1)
      | none => if c = '.' then some 0 else none

/-- `pathlib.PurePath.suffix` of a file name: the part from the last dot on,
provided that dot is neither the first nor the last character. -/
def pathSuffix (name : String) : String :=
  match lastDotIdx name.toList with
  | some i => if 0 < i && i + 1 < name.toList.length then (name.toList.drop i).asString else ""
  | none => ""

/-- Per-file data the pipeline observes: whether the binary read in
`get_file_hash` succeeds, whether the text read in `analyze_file` succeeds,
and the decoded content. -/
structure FileData where
  hashReadable : Bool
  textReadable : Bool
  content : String
deriving Repr, DecidableEq

/-- A scanned file: its absolute path (as segments) plus its data. -/
structure SrcFile where
  segs : List String
  data : FileData
deriving Repr, DecidableEq

/-- Directory listings as produced by `os.walk`: a sequence of entries, each
either a file or a subdirectory with its own listing.  (Enumeration order is
platform-dependent in the source; the model fixes the order given by the
tree.) -/
inductive FsTree where
  | nil : FsTree
  | file (name : String) (d : FileData) (rest : FsTree) : FsTree
  | dir (name : String) (children : FsTree) (rest : FsTree) : FsTree
deriving Repr, DecidableEq

/-- The body of `CodebaseRAG.scan_codebase`'s `os.walk` loop: subdirectories
for which `should_ignore` holds are pruned (never descended into), files are
kept when not ignored and their name's suffix, lower-cased, is in
`code_extensions`. -/
def scanList (dirSegs : List String) : FsTree → List SrcFile
  | .nil => []
  | .file name d rest =>
      (if should_ignore (dirSegs ++ [name]) then []
       else if code_extensions.contains (lowerStr (pathSuffix name)) then
         [⟨dirSegs ++ [name], d⟩]
       else []) ++ scanList dirSegs rest
  | .dir name children rest =>
      (if should_ignore (dirSegs ++ [name]) then []
       else scanList (dirSegs ++ [name]) children) ++ scanList dirSegs rest

/-- `CodebaseRAG.scan_codebase`: walk the root's listing.  The root itself is
never tested against the ignore patterns (`os.walk` always enters it). -/
def scan_codebase (rootSegs : List String) (tree : FsTree) : List SrcFile :=
  scanList rootSegs tree

/-- Python `content.split(c)` for a single-character separator, on
character lists.  `len(content.split(c))` is one more than the number of
separators, and `split` on an empty string yields `[""]`. -/
def pySplit (sep : Char) : List Char → List (List Char)
  | [] => [[]]
  | c :: cs =>
      let rest := pySplit sep cs
      if c = sep then [] :: rest
      else
        match rest with
        | [] => [[c]]
        | g :: gs => (c :: g) :: gs

/-- Python `s[:n]` (a character-count prefix). -/
def pyTake (n : Nat) (s : String) : String :=
  (s.toList.take n).asString

/-- Python `len(s)` (a character count). -/
def pyLen (s : String) : Nat :=
  s.toList.length

/-- One analyzed file, as the dictionaries built by `analyze_file` (and
stored in the JSON cache): each key may be present or absent.  The error
dictionary `{'error': ..., 'hash': ...}` carries only those two keys; the
success dictionary carries all keys except `error`. -/
structure FileRecord where
  hash : Option String := none
  path : Option String := none
  size : Option Nat := none
  lines : Option Nat := none
  analysis : Option String := none
  content_preview : Option String := none
  error : Option String := none
deriving Repr, DecidableEq

/-- The in-memory cache / result map: relative path → record, in insertion
order, as a Python `dict` of record dictionaries. -/
abbrev Cache := List (String × FileRecord)

/-- The JSON fragment needed by `analysis_cache.json`: strings, nonnegative
integers, and objects (the cache document is a dict of record dicts whose
values are strings and nonnegative ints). -/
inductive Json where
  | str : String → Json
  | num : Nat → Json
  | obj : List (String × Json) → Json

/-- Read a string field of a JSON object. -/
def jGetStr (fields : List (String × Json)) (k : String) : Option String :=
  match fields.lookup k with
  | some (.str s) => some s
  | _ => none

/-- Read an integer field of a JSON object. -/
def jGetNat (fields : List (String × Json)) (k : String) : Option Nat :=
  match fields.lookup k with
  | some (.num n) => some n
  | _ => none

/-- Serialize one record dictionary: exactly the present keys are emitted,
as `json.dump` does for a Python dict. -/
def encodeRecord (r : FileRecord) : Json :=
  Json.obj
    ((r.hash.map fun s => ("hash", Json.str s)).toList ++
     (r.path.map fun s => ("path", Json.str s)).toList ++
     (r.size.map fun n => ("size", Json.num n)).toList ++
     (r.lines.map fun n => ("lines", Json.num n)).toList ++
     (r.analysis.map fun s => ("analysis", Json.str s)).toList ++
     (r.content_preview.map fun s => ("content_preview", Json.str s)).toList ++
     (r.error.map fun s => ("error", Json.str s)).toList)

/-- Parse one record dictionary back from JSON. -/
def decodeRecord : Json → Option FileRecord
  | .obj fields =>
      some { hash := jGetStr fields "hash",
             path := jGetStr fields "path",
             size := jGetNat fields "size",
             lines := jGetNat fields "lines",
             analysis := jGetStr fields "analysis",
             content_preview := jGetStr fields "content_preview",
             error := jGetStr fields "error" }
  | _ => none

/-- Serialize the whole cache document (`json.dump(cache_data, f)`). -/
def encodeCache (m : Cache) : Json :=
  Json.obj (m.map fun kv => (kv.1, encodeRecord kv.2))

/-- Parse the whole cache document. -/
def decodeCache : Json → Option Cache
  | .obj fields => fields.mapM fun kv => (decodeRecord kv.2).map fun r => (kv.1, r)
  | _ => none

/-- `CodebaseRAG.load_cache`: a missing cache file, or one that fails to
parse, degrades to the empty cache.  The disk is modelled as the optional
JSON document currently stored at `.rag_cache/analysis_cache.json`. -/
def load_cache (disk : Option Json) : Cache :=
  match disk with
  | none => []
  | some j =>
      match decodeCache j with
      | some c => c
      | none => []

/-- `CodebaseRAG.save_cache`: overwrite the cache file with the serialized
result map (modelling a successful write). -/
def save_cache (cache_data : Cache) : Option Json :=
  some (encodeCache cache_data)

/-- `str(file_path.relative_to(self.root_path))`. -/
def relPathOf (rootSegs : List String) (f : SrcFile) : String :=
  String.intercalate "/" (f.segs.drop rootSegs.length)

/-- `CodebaseRAG.get_file_hash`: md5 of the file bytes; the empty string on
a read failure (the bare `except` branch). -/
def get_file_hash (md5hex : String → String) (f : SrcFile) : String :=
  if f.data.hashReadable then md5hex f.data.content else ""

/-- The analysis prompt built by `analyze_file`. -/
def buildPrompt (relative_path content : String) : String :=
  "Analyze this code file and provide a structured summary:\n\nFile: " ++
  relative_path ++ "\nContent:\n```\n" ++ pyTake 4000 content ++
  "  # Limit content to avoid token limits\n```\n\nPlease provide:\n" ++
  "1. Brief description of what this file does\n" ++
  "2. Key functions/classes/components\n" ++
  "3. Dependencies and imports\n" ++
  "4. Main purpose and role in the project\n" ++
  "5. Any notable patterns or architecture\n\n" ++
  "Format as JSON with keys: description, key_components, dependencies, purpose, notes"

/-- `CodebaseRAG.analyze_file`.  Steps, as in the source: compute the
relative path and fingerprint; on a cache entry with equal stored hash,
return the cached record verbatim; otherwise read the file (a failure
returns the two-key error record); otherwise call the generation
capability — a raised exception there is NOT caught inside `analyze_file`
and propagates to the caller, modelled by the `Except.error` result. -/
def analyze_file (md5hex : String → String) (ask_llm : String → Except String String)
    (rootSegs : List String) (f : SrcFile) (cache : Cache) : Except String FileRecord :=
  let relative_path := relPathOf rootSegs f
  let file_hash := get_file_hash md5hex f
  match (cache.lookup relative_path).bind
      (fun r => if r.hash = some file_hash then some r else none) with
  | some r => Except.ok r
  | none =>
      if f.data.textReadable then
        let content := f.data.content
        (ask_llm (buildPrompt relative_path content)).map fun llm_response =>
          { hash := some file_hash,
            path := some relative_path,
            size := some (pyLen content),
            lines := some (pySplit '\n' content.toList).length,
            analysis := some llm_response,
            content_preview := some (pyTake 500 content) }
      else
        Except.ok { error := some "Could not read file", hash := some file_hash }

/-- Python dict assignment `results[k] = v`: replace the value at an
existing key in place, else append the binding. -/
def dictInsert : Cache → String → FileRecord → Cache
  | [], k, v => [(k, v)]
  | (k', v') :: t, k, v =>
      if k' = k then (k, v) :: t else (k', v') :: dictInsert t k v

/-- One turn of the `as_completed` loop in `analyze_codebase_parallel`: a
future that resolved with a record is stored under the file's relative
path; a future whose `analyze_file` call raised is logged and skipped, so
that file is absent from the result map. -/
def collectStep (md5hex : String → String) (ask_llm : String → Except String String)
    (rootSegs : List String) (cache : Cache) (acc : Cache) (f : SrcFile) : Cache :=
  match analyze_file md5hex ask_llm rootSegs f cache with
  | Except.ok r => dictInsert acc (relPathOf rootSegs f) r
  | Except.error _ => acc

/-- The full `as_completed` collection loop, over an explicit completion
order. -/
def collectResults (md5hex : String → String) (ask_llm : String → Except String String)
    (rootSegs : List String) (cache : Cache) (order : List SrcFile) : Cache :=
  order.foldl (collectStep md5hex ask_llm rootSegs cache) []

/-- `CodebaseRAG.analyze_codebase_parallel`: scan, load the cache snapshot,
collect per-file results as futures complete (in the nondeterministic
`order`, a permutation of the scanned list), then overwrite the cache file
with exactly the result map.  `max_workers` bounds the pool size; in this
timing-free model it influences only which completion orders can occur, so
it does not appear on the right-hand side.  Returns the result map and the
new disk state. -/
def analyze_codebase_parallel (md5hex : String → String)
    (ask_llm : String → Except String String) (max_workers : Nat)
    (rootSegs : List String) (tree : FsTree) (disk : Option Json)
    (order : List SrcFile) : Cache × Option Json :=
  let _pool_size := max_workers
  let _files := scan_codebase rootSegs tree
  let cache := load_cache disk
  let results := collectResults md5hex ask_llm rootSegs cache order
  (results, save_cache results)

/-- Whether the first list is a prefix of the second (Boolean). -/
def isPrefixOfList : List Char → List Char → Bool
  | [], _ => true
  | _ :: _, [] => false
  | a :: as, b :: bs => (a == b) && isPrefixOfList as bs

/-- Python's substring test `needle in hay` on character lists. -/
def containsList (needle : List Char) : List Char → Bool
  | [] => isPrefixOfList needle []
  | c :: cs => isPrefixOfList needle (c :: cs) || containsList needle cs

/-- Case-insensitive containment as written in the source: the needle is
used as-is, the haystack is lower-cased (`'api' in k.lower()`). -/
def strContainsLower (hay needle : String) : Bool :=
  containsList needle.toList (lowerStr hay).toList

/-- The `api_files` comprehension in `generate_all_documentation`: keys
whose path contains `"api"` (case-insensitively) or whose record's
`analysis` text (empty if absent) contains `"endpoint"`
(case-insensitively). -/
def apiFiles (analysis_results : Cache) : List String :=
  (analysis_results.filter fun kv =>
    strContainsLower kv.1 "api" || strContainsLower (kv.2.analysis.getD "") "endpoint").map
    fun kv => kv.1

/-- `if api_files:` — the API documentation artifact is produced exactly
when `api_files` is nonempty. -/
def apiDocGenerated (analysis_results : Cache) : Bool :=
  !(apiFiles analysis_results).isEmpty

/-- `Path(file_path).stem` of a relative path string: the final `/`
segment without its suffix. -/
def pathStem (p : String) : String :=
  let n := (pySplit '/' p.toList).getLastD [] |>.asString
  (n.toList.take (n.toList.length - (pathSuffix n).toList.length)).asString

/-- The summary lines built at the top of `generate_project_overview`: one
line per record that HAS an `analysis` key (`if 'analysis' in result:`),
truncating the analysis text to 300 characters. -/
def overview_file_summaries (analysis_results : Cache) : List String :=
  analysis_results.filterMap fun kv =>
    (kv.2.analysis).map fun a =>
      "File: " ++ kv.1 ++ "\nAnalysis: " ++ pyTake 300 a ++ "..."

/-- The per-component prompt built in `generate_component_docs`. -/
def componentPrompt (file_path analysisText preview : String) : String :=
  "Create detailed documentation for this code component:\n\nFile: " ++
  file_path ++ "\nAnalysis: " ++ analysisText ++ "\nCode preview: " ++ preview ++
  "\n\nGenerate comprehensive documentation including:\n" ++
  "1. Purpose and functionality\n" ++
  "2. Key methods/functions with descriptions\n" ++
  "3. Usage examples where applicable\n" ++
  "4. Dependencies and relationships\n" ++
  "5. Configuration options if any\n\nFormat as clean markdown."

/-- `CodebaseRAG.generate_component_docs`: one `docs/<stem>.md` artifact per
record that has a non-empty `analysis` value (`if 'analysis' in analysis
and analysis['analysis']:`).  The assembly-stage generation capability is a
total parameter here (its failures are outside the per-file pipeline).
Artifact paths are segment lists relative to the root. -/
def generate_component_docs (gen : String → String) (analysis_results : Cache) :
    List (List String × String) :=
  analysis_results.filterMap fun kv =>
    match kv.2.analysis with
    | some a =>
        if a = "" then none
        else some (["docs", pathStem kv.1 ++ ".md"],
          gen (componentPrompt kv.1 a (kv.2.content_preview.getD "")))
    | none => none

/-- The artifact paths written by `generate_all_documentation`: always
`README.md`, then the component docs, then `API_DOCUMENTATION.md` exactly
when `api_files` is nonempty. -/
def generate_all_documentation_files (gen : String → String)
    (analysis_results : Cache) : List (List String) :=
  [["README.md"]] ++
  (generate_component_docs gen analysis_results).map (fun kv => kv.1) ++
  (if apiDocGenerated analysis_results then [["API_DOCUMENTATION.md"]] else [])

/-- The directories existing on disk, for the constructor's side effect. -/
structure World where
  dirs : List (List String)
deriving Repr, DecidableEq

/-- `CodebaseRAG.__init__`: the constructor immediately runs
`self.cache_dir.mkdir(exist_ok=True)`, creating `<root>/.rag_cache` if it
does not already exist, before any scan, analysis or cache operation. -/
def CodebaseRAG_init (rootSegs : List String) (w : World) : World :=
  let cache_dir := rootSegs ++ [".rag_cache"]
  { dirs := if cache_dir ∈ w.dirs then w.dirs else w.dirs ++ [cache_dir] }

/-! ## Deterministic stand-ins used by concrete witnesses -/

/-- A concrete stand-in for `hashlib.md5(...).hexdigest()`. -/
def md5stub : String → String := fun s => "h:" ++ s

/-- A generation capability that always succeeds with a fixed answer. -/
def llmOk : String → Except String String := fun _ => Except.ok "STUB ANALYSIS"

/-- A generation capability that always raises. -/
def llmFail : String → Except String String := fun _ => Except.error "llm failure"

/-- A total assembly-stage generation stand-in. -/
def genStub : String → String := fun _ => "DOC"

/-! ## C1: fingerprint-equal cache entries are returned verbatim -/

/-- C1.  If the cache holds a record under the file's relative path whose
stored `hash` equals the file's current fingerprint, then `analyze_file`
returns that cached record unchanged, for EVERY generation capability
`ask_llm` — the result does not depend on `ask_llm`, which is the
functional statement that the generation capability is not invoked on a
cache hit. -/
theorem c1_cache_hit (md5hex : String → String) (ask_llm : String → Except String String)
    (rootSegs : List String) (f : SrcFile) (cache : Cache) (r : FileRecord)
    (hlook : cache.lookup (relPathOf rootSegs f) = some r)
    (hhash : r.hash = some (get_file_hash md5hex f)) :
    analyze_file md5hex ask_llm rootSegs f cache = Except.ok r := by
  unfold analyze_file
  simp [hlook, hhash]

/-- Witness for C1 at a concrete input: a cached record for `a.py` whose
stored hash matches, with the always-raising capability `llmFail` — the
cached record comes back unchanged. -/
theorem c1_cache_hit_witness :
    (([("a.py", ({ hash := some "h:x", analysis := some "CACHED" } : FileRecord))] : Cache).lookup
        (relPathOf ["root"] ⟨["root", "a.py"], ⟨true, true, "x"⟩⟩) =
      some { hash := some "h:x", analysis := some "CACHED" }) ∧
    analyze_file md5stub llmFail ["root"] ⟨["root", "a.py"], ⟨true, true, "x"⟩⟩
        [("a.py", { hash := some "h:x", analysis := some "CACHED" })] =
      Except.ok { hash := some "h:x", analysis := some "CACHED" } :=
  ⟨rfl, c1_cache_hit md5stub llmFail ["root"] ⟨["root", "a.py"], ⟨true, true, "x"⟩⟩
    [("a.py", { hash := some "h:x", analysis := some "CACHED" })]
    { hash := some "h:x", analysis := some "CACHED" } rfl rfl⟩

/-! ## C2: the sentinel fingerprint -/

/-- C2 counterexample.  A file whose bytes cannot be read gets the sentinel
fingerprint `""`; when the cached record's stored hash is also `""`,
`analyze_file` DOES treat the entry as a hit and returns the cached record
(here with the always-raising capability, so no generation call happened) —
contradicting "the sentinel is always stale". -/
theorem c2_sentinel_counterexample :
    get_file_hash md5stub ⟨["root", "a.py"], ⟨false, true, "x"⟩⟩ = "" ∧
    analyze_file md5stub llmFail ["root"] ⟨["root", "a.py"], ⟨false, true, "x"⟩⟩
        [("a.py", { hash := some "", analysis := some "STALE CACHED" })] =
      Except.ok { hash := some "", analysis := some "STALE CACHED" } :=
  ⟨rfl, rfl⟩

/-- C2 as amended.  On a read failure the fingerprint computation returns
the sentinel `""` instead of raising, and the sentinel participates in the
ordinary equality test of the cache check: a cached record whose stored
hash is also the sentinel IS returned as a cache hit. -/
theorem c2_sentinel_amended (md5hex : String → String)
    (ask_llm : String → Except String String) (rootSegs : List String)
    (f : SrcFile) (cache : Cache) (r : FileRecord)
    (hunread : f.data.hashReadable = false) :
    get_file_hash md5hex f = "" ∧
    (cache.lookup (relPathOf rootSegs f) = some r → r.hash = some "" →
      analyze_file md5hex ask_llm rootSegs f cache = Except.ok r) := by
  have hh : get_file_hash md5hex f = "" := by simp [get_file_hash, hunread]
  refine ⟨hh, fun hlook hhash => ?_⟩
  unfold analyze_file
  simp [hlook, hh, hhash]

/-- Witness for the amended C2 at a concrete input. -/
theorem c2_sentinel_amended_witness :
    ((⟨["root", "b.py"], ⟨false, true, "y"⟩⟩ : SrcFile).data.hashReadable = false) ∧
    (get_file_hash md5stub ⟨["root", "b.py"], ⟨false, true, "y"⟩⟩ = "" ∧
      (([("b.py", ({ hash := some "", error := some "old" } : FileRecord))] : Cache).lookup
          (relPathOf ["root"] ⟨["root", "b.py"], ⟨false, true, "y"⟩⟩) =
            some { hash := some "", error := some "old" } →
        ({ hash := some "", error := some "old" } : FileRecord).hash = some "" →
        analyze_file md5stub llmOk ["root"] ⟨["root", "b.py"], ⟨false, true, "y"⟩⟩
            [("b.py", { hash := some "", error := some "old" })] =
          Except.ok { hash := some "", error := some "old" })) :=
  ⟨rfl, c2_sentinel_amended md5stub llmOk ["root"] ⟨["root", "b.py"], ⟨false, true, "y"⟩⟩
    [("b.py", { hash := some "", error := some "old" })]
    { hash := some "", error := some "old" } rfl⟩

/-! ## C3: a generation-capability failure -/

/-- C3 counterexample.  `ask_llm` is called OUTSIDE any try/except in
`analyze_file`, so when the generation capability raises, `analyze_file`
propagates the exception instead of returning a record with `error` set,
and the dispatch loop drops the file: the result map for a one-file run is
empty — no `FileRecord` with an `error` field exists for that file. -/
theorem c3_llm_failure_counterexample :
    analyze_file md5stub llmFail ["root"] ⟨["root", "c.py"], ⟨true, true, "z"⟩⟩ [] =
      Except.error "llm failure" ∧
    collectResults md5stub llmFail ["root"] [] [⟨["root", "c.py"], ⟨true, true, "z"⟩⟩] = [] :=
  ⟨rfl, rfl⟩

/-- C3 as amended.  A generation-capability failure never aborts the run
and is confined to the failing file, but its effect is that the file is
ABSENT from the result map (caught at the dispatch boundary), not that its
record carries `error` — the `error` field is set only for file-read
failures.  Sibling files before and after it are processed exactly as if
the failing file were not there. -/
theorem c3_llm_failure_amended (md5hex : String → String)
    (ask_llm : String → Except String String) (rootSegs : List String)
    (cache : Cache) (fs₁ fs₂ : List SrcFile) (f : SrcFile) (e : String)
    (hfail : analyze_file md5hex ask_llm rootSegs f cache = Except.error e) :
    collectResults md5hex ask_llm rootSegs cache (fs₁ ++ f :: fs₂) =
      collectResults md5hex ask_llm rootSegs cache (fs₁ ++ fs₂) := by
  unfold collectResults
  rw [List.foldl_append, List.foldl_append, List.foldl_cons]
  congr 1
  unfold collectStep
  rw [hfail]

/-- Witness for the amended C3 at a concrete input: the failing `d.py` is
dropped and its sibling `e.py` is still processed. -/
theorem c3_llm_failure_amended_witness :
    (analyze_file md5stub llmFail ["root"] ⟨["root", "d.py"], ⟨true, true, "w"⟩⟩ [] =
      Except.error "llm failure") ∧
    collectResults md5stub llmFail ["root"] []
        ([] ++ ⟨["root", "d.py"], ⟨true, true, "w"⟩⟩ :: [⟨["root", "e.py"], ⟨true, true, "v"⟩⟩]) =
      collectResults md5stub llmFail ["root"] [] ([] ++ [⟨["root", "e.py"], ⟨true, true, "v"⟩⟩]) :=
  ⟨rfl, c3_llm_failure_amended md5stub llmFail ["root"] [] []
    [⟨["root", "e.py"], ⟨true, true, "v"⟩⟩] ⟨["root", "d.py"], ⟨true, true, "w"⟩⟩
    "llm failure" rfl⟩

/-! ## C5: cache save/load round-trip -/

/-- Decoding inverts encoding on a single record. -/
theorem decodeRecord_encodeRecord (r : FileRecord) :
    decodeRecord (encodeRecord r) = some r := by
  rcases r with ⟨h, p, s, l, a, c, e⟩
  cases h <;> cases p <;> cases s <;> cases l <;> cases a <;> cases c <;> cases e <;>
    simp [decodeRecord, encodeRecord, jGetStr, jGetNat, List.lookup]

/-- Decoding inverts encoding on the whole cache document. -/
theorem decodeCache_encodeCache (m : Cache) : decodeCache (encodeCache m) = some m := by
  induction m with
  | nil => rfl
  | cons kv t ih =>
      have ih' : decodeCache (encodeCache t) = some t := ih
      simp only [decodeCache, encodeCache, List.map_cons, List.mapM_cons,
        decodeRecord_encodeRecord] at ih' ⊢
      rw [ih']
      rfl

/-- C5.  Saving any map of records and loading it back yields an equal
map: `load_cache (save_cache m) = m`. -/
theorem c5_cache_round_trip (m : Cache) : load_cache (save_cache m) = m := by
  simp [load_cache, save_cache, decodeCache_encodeCache]

/-! ## C4: scanner ignores and prunes -/

/-- Soundness of one `os.walk` level, generalized over the current
directory: every yielded file lies strictly below the current directory,
extends it, is itself not ignored, passes the lower-cased extension
allow-list, and none of its ancestor directories strictly below the
current directory is ignored (they were all descended into, hence not
pruned). -/
theorem scanList_sound (tree : FsTree) (dirSegs : List String) (f : SrcFile)
    (hf : f ∈ scanList dirSegs tree) :
    dirSegs.length < f.segs.length ∧
    f.segs.take dirSegs.length = dirSegs ∧
    should_ignore f.segs = false ∧
    code_extensions.contains (lowerStr (pathSuffix (segsName f.segs))) = true ∧
    ∀ n, dirSegs.length < n → n < f.segs.length → should_ignore (f.segs.take n) = false := by
  induction tree generalizing dirSegs with
  | nil => simp [scanList] at hf
  | file name d rest ih_rest =>
      rw [scanList, List.mem_append] at hf
      rcases hf with hf | hf
      · by_cases hig : should_ignore (dirSegs ++ [name]) = true
        · rw [if_pos hig] at hf
          exact absurd hf (List.not_mem_nil f)
        · rw [if_neg hig] at hf
          have hig' : should_ignore (dirSegs ++ [name]) = false :=
            Bool.not_eq_true _ ▸ eq_false_of_ne_true hig
          by_cases hext : code_extensions.contains (lowerStr (pathSuffix name)) = true
          · rw [if_pos hext, List.mem_singleton] at hf
            subst hf
            refine ⟨by simp, List.take_left dirSegs [name], hig', ?_, ?_⟩
            · simpa [segsName] using hext
            · intro n h1 h2
              simp at h2
              omega
          · rw [if_neg hext] at hf
            exact absurd hf (List.not_mem_nil f)
      · exact ih_rest dirSegs hf
  | dir name children rest ih_children ih_rest =>
      rw [scanList, List.mem_append] at hf
      rcases hf with hf | hf
      · by_cases hig : should_ignore (dirSegs ++ [name]) = true
        · rw [if_pos hig] at hf
          exact absurd hf (List.not_mem_nil f)
        · rw [if_neg hig] at hf
          have hig' : should_ignore (dirSegs ++ [name]) = false :=
            Bool.not_eq_true _ ▸ eq_false_of_ne_true hig
          obtain ⟨hlen, htake, hni, hext, hanc⟩ := ih_children (dirSegs ++ [name]) hf
          have htake' : f.segs.take (dirSegs.length + 1) = dirSegs ++ [name] := by
            simpa using htake
          have hlen' : dirSegs.length + 1 < f.segs.length := by simpa using hlen
          refine ⟨by omega, ?_, hni, hext, ?_⟩
          · have h2 := congrArg (fun l => List.take dirSegs.length l) htake'
            simpa [List.take_take, Nat.min_eq_left (Nat.le_succ _),
              List.take_left] using h2
          · intro n hn1 hn2
            rcases Nat.lt_or_ge n (dirSegs.length + 1 + 1) with hn | hn
            · have hneq : n = dirSegs.length + 1 := by omega
              subst hneq
              rw [htake']
              exact hig'
            · exact hanc n (by simpa using hn) hn2
      · exact ih_rest dirSegs hf

/-- C4.  Every file yielded by the scanner is itself not ignored and its
name's lower-cased suffix is in the extension allow-list; moreover every
ancestor directory of the file strictly below the scan root (`f.segs.take
n` for `rootSegs.length < n < f.segs.length`) is not ignored — so no file
beneath an ignored directory is ever enumerated, even when its own
extension would pass: the prune happens at traversal time. -/
theorem c4_scanner_prunes (rootSegs : List String) (tree : FsTree) (f : SrcFile)
    (hf : f ∈ scan_codebase rootSegs tree) :
    should_ignore f.segs = false ∧
    code_extensions.contains (lowerStr (pathSuffix (segsName f.segs))) = true ∧
    ∀ n, rootSegs.length < n → n < f.segs.length → should_ignore (f.segs.take n) = false := by
  obtain ⟨-, -, h3, h4, h5⟩ := scanList_sound tree rootSegs f hf
  exact ⟨h3, h4, h5⟩

/-- Witness for C4 on a concrete tree containing an allowed file, an
ignored `.git` directory with a `.py` file beneath it (which the scan
output indeed omits), and the yielded file `r/a.py`. -/
theorem c4_scanner_prunes_witness :
    ((⟨["r", "a.py"], ⟨true, true, "x"⟩⟩ : SrcFile) ∈
      scan_codebase ["r"]
        (.file "a.py" ⟨true, true, "x"⟩
          (.dir ".git" (.file "c.py" ⟨true, true, "y"⟩ .nil) .nil))) ∧
    (should_ignore ["r", "a.py"] = false ∧
      code_extensions.contains (lowerStr (pathSuffix (segsName ["r", "a.py"]))) = true ∧
      ∀ n, ([("r" : String)]).length < n → n < (["r", "a.py"]).length →
        should_ignore ((["r", "a.py"]).take n) = false) :=
  ⟨by decide,
    c4_scanner_prunes ["r"]
      (.file "a.py" ⟨true, true, "x"⟩
        (.dir ".git" (.file "c.py" ⟨true, true, "y"⟩ .nil) .nil))
      ⟨["r", "a.py"], ⟨true, true, "x"⟩⟩ (by decide)⟩

/-! ## C8: result map independent of worker count and completion order -/

/-- Looking up the key just written by a dict assignment. -/
theorem lookup_dictInsert_self (m : Cache) (k : String) (v : FileRecord) :
    (dictInsert m k v).lookup k = some v := by
  induction m with
  | nil => simp [dictInsert, List.lookup]
  | cons kv t ih =>
      rcases kv with ⟨k', v'⟩
      rw [dictInsert]
      by_cases h : k' = k
      · rw [if_pos h]
        simp only [List.lookup, beq_self_eq_true]
      · rw [if_neg h]
        simp only [List.lookup, beq_eq_false_iff_ne.mpr (Ne.symm h)]
        exact ih

/-- A dict assignment leaves every other key unchanged. -/
theorem lookup_dictInsert_ne (m : Cache) (k k₂ : String) (v : FileRecord)
    (hne : k₂ ≠ k) : (dictInsert m k v).lookup k₂ = m.lookup k₂ := by
  induction m with
  | nil => simp [dictInsert, List.lookup, beq_eq_false_iff_ne.mpr hne]
  | cons kv t ih =>
      rcases kv with ⟨k', v'⟩
      rw [dictInsert]
      by_cases h : k' = k
      · rw [if_pos h]
        have hne' : k₂ ≠ k' := fun e => hne (e.trans h)
        simp only [List.lookup, beq_eq_false_iff_ne.mpr hne,
          beq_eq_false_iff_ne.mpr hne']
      · rw [if_neg h]
        simp only [List.lookup]
        cases hbe : (k₂ == k') with
        | true => rfl
        | false => exact ih

/-- Files whose relative path differs from `k` never touch `k` in the
collection fold. -/
theorem collect_fold_untouched (md5hex : String → String)
    (ask_llm : String → Except String String) (rootSegs : List String)
    (cache : Cache) (k : String) :
    ∀ (fs : List SrcFile) (acc : Cache), (∀ g ∈ fs, relPathOf rootSegs g ≠ k) →
      (fs.foldl (collectStep md5hex ask_llm rootSegs cache) acc).lookup k =
        acc.lookup k := by
  intro fs
  induction fs with
  | nil => intro acc _; rfl
  | cons f t ih =>
      intro acc hnone
      rw [List.foldl_cons, ih _ (fun g hg => hnone g (List.mem_cons_of_mem f hg))]
      cases hres : analyze_file md5hex ask_llm rootSegs f cache with
      | ok r =>
          simp only [collectStep, hres]
          exact lookup_dictInsert_ne acc (relPathOf rootSegs f) k r
            (Ne.symm (hnone f (List.mem_cons_self f t)))
      | error e => simp only [collectStep, hres]

/-- What the collection fold stores at key `k`, when relative paths are
pairwise distinct: the analysis result of the unique file with that
relative path, if it completed normally; otherwise whatever the
accumulator already had. -/
theorem collect_fold_lookup (md5hex : String → String)
    (ask_llm : String → Except String String) (rootSegs : List String)
    (cache : Cache) (k : String) :
    ∀ (fs : List SrcFile) (acc : Cache), (fs.map (relPathOf rootSegs)).Nodup →
      (fs.foldl (collectStep md5hex ask_llm rootSegs cache) acc).lookup k =
        (match fs.find? (fun g => relPathOf rootSegs g == k) with
         | some g =>
             match analyze_file md5hex ask_llm rootSegs g cache with
             | Except.ok r => some r
             | Except.error _ => acc.lookup k
         | none => acc.lookup k) := by
  intro fs
  induction fs with
  | nil => intro acc _; rfl
  | cons f t ih =>
      intro acc hnd
      rw [List.map_cons, List.nodup_cons] at hnd
      obtain ⟨hhead, hnd_t⟩ := hnd
      rw [List.foldl_cons]
      by_cases hpk : relPathOf rootSegs f = k
      · have hfind : (f :: t).find? (fun g => relPathOf rootSegs g == k) = some f := by
          have hp : (fun g => relPathOf rootSegs g == k) f = true := beq_iff_eq.mpr hpk
          exact List.find?_cons_of_pos t hp
        rw [hfind]
        have hnone : ∀ g ∈ t, relPathOf rootSegs g ≠ k := by
          intro g hg hgk
          exact hhead (hpk ▸ hgk ▸ List.mem_map_of_mem (relPathOf rootSegs) hg)
        rw [collect_fold_untouched md5hex ask_llm rootSegs cache k t _ hnone]
        cases hres : analyze_file md5hex ask_llm rootSegs f cache with
        | ok r =>
            simp only [collectStep, hres]
            rw [← hpk]
            exact lookup_dictInsert_self acc (relPathOf rootSegs f) r
        | error e => simp only [collectStep, hres]
      · have hfind : (f :: t).find? (fun g => relPathOf rootSegs g == k) =
            t.find? (fun g => relPathOf rootSegs g == k) :=
          List.find?_cons_of_neg t (by simpa using hpk)
        rw [hfind, ih _ hnd_t]
        have hstep : (collectStep md5hex ask_llm rootSegs cache acc f).lookup k =
            acc.lookup k := by
          cases hres : analyze_file md5hex ask_llm rootSegs f cache with
          | ok r =>
              simp only [collectStep, hres]
              exact lookup_dictInsert_ne acc (relPathOf rootSegs f) k r (Ne.symm hpk)
          | error e => simp only [collectStep, hres]
        rw [hstep]

/-- `find?` for a key-test is permutation-invariant once relative paths are
pairwise distinct (there is at most one file with a given key). -/
theorem find?_perm_of_nodup_keys (rootSegs : List String) (k : String)
    (l₁ l₂ : List SrcFile) (h : l₁.Perm l₂)
    (hnd : (l₂.map (relPathOf rootSegs)).Nodup) :
    l₁.find? (fun g => relPathOf rootSegs g == k) =
      l₂.find? (fun g => relPathOf rootSegs g == k) := by
  cases e₂ : l₂.find? (fun g => relPathOf rootSegs g == k) with
  | none =>
      apply List.find?_eq_none.mpr
      intro x hx
      exact List.find?_eq_none.mp e₂ x (h.mem_iff.mp hx)
  | some a =>
      have hpa := List.find?_some e₂
      have hpa' : relPathOf rootSegs a = k := beq_iff_eq.mp hpa
      have ha₂ : a ∈ l₂ := List.mem_of_find?_eq_some e₂
      have ha₁ : a ∈ l₁ := h.mem_iff.mpr ha₂
      cases e₁ : l₁.find? (fun g => relPathOf rootSegs g == k) with
      | none =>
          have := List.find?_eq_none.mp e₁ a ha₁
          exact absurd hpa (by simpa using this)
      | some b =>
          have hpb := List.find?_some e₁
          have hpb' : relPathOf rootSegs b = k := beq_iff_eq.mp hpb
          have hb₂ : b ∈ l₂ := h.mem_iff.mp (List.mem_of_find?_eq_some e₁)
          have hba : b = a := List.inj_on_of_nodup_map hnd hb₂ ha₂
            (by rw [hpb', hpa'])
          rw [hba]

/-- C8.  With a fixed (hence deterministic) generation capability and
pairwise-distinct relative paths, running the parallel analysis with
`max_workers = 1` and with `max_workers = 4` — each under ANY completion
order that permutes the scanned file set — produces result maps that agree
on every key. -/
theorem c8_worker_count_equiv (md5hex : String → String)
    (ask_llm : String → Except String String) (rootSegs : List String)
    (tree : FsTree) (disk : Option Json) (ord₁ ord₂ : List SrcFile)
    (h₁ : ord₁.Perm (scan_codebase rootSegs tree))
    (h₂ : ord₂.Perm (scan_codebase rootSegs tree))
    (hnd : ((scan_codebase rootSegs tree).map (relPathOf rootSegs)).Nodup) :
    ∀ k, ((analyze_codebase_parallel md5hex ask_llm 1 rootSegs tree disk ord₁).1).lookup k =
      ((analyze_codebase_parallel md5hex ask_llm 4 rootSegs tree disk ord₂).1).lookup k := by
  intro k
  have hnd₁ : (ord₁.map (relPathOf rootSegs)).Nodup :=
    ((h₁.map (relPathOf rootSegs)).nodup_iff).mpr hnd
  have hnd₂ : (ord₂.map (relPathOf rootSegs)).Nodup :=
    ((h₂.map (relPathOf rootSegs)).nodup_iff).mpr hnd
  simp only [analyze_codebase_parallel, collectResults]
  rw [collect_fold_lookup md5hex ask_llm rootSegs (load_cache disk) k ord₁ [] hnd₁,
    collect_fold_lookup md5hex ask_llm rootSegs (load_cache disk) k ord₂ [] hnd₂,
    find?_perm_of_nodup_keys rootSegs k ord₁ (scan_codebase rootSegs tree) h₁ hnd,
    find?_perm_of_nodup_keys rootSegs k ord₂ (scan_codebase rootSegs tree) h₂ hnd]

/-- Witness for C8 on a concrete two-file tree, taking both completion
orders to be the scan order itself. -/
theorem c8_worker_count_equiv_witness :
    ((scan_codebase ["r"]
        (.file "m.py" ⟨true, true, "a"⟩ (.file "api.py" ⟨true, true, "b"⟩ .nil))).Perm
      (scan_codebase ["r"]
        (.file "m.py" ⟨true, true, "a"⟩ (.file "api.py" ⟨true, true, "b"⟩ .nil)))) ∧
    (((scan_codebase ["r"]
        (.file "m.py" ⟨true, true, "a"⟩ (.file "api.py" ⟨true, true, "b"⟩ .nil))).map
        (relPathOf ["r"])).Nodup) ∧
    ∀ k, ((analyze_codebase_parallel md5stub llmOk 1 ["r"]
        (.file "m.py" ⟨true, true, "a"⟩ (.file "api.py" ⟨true, true, "b"⟩ .nil)) none
        (scan_codebase ["r"]
          (.file "m.py" ⟨true, true, "a"⟩ (.file "api.py" ⟨true, true, "b"⟩ .nil)))).1).lookup k =
      ((analyze_codebase_parallel md5stub llmOk 4 ["r"]
        (.file "m.py" ⟨true, true, "a"⟩ (.file "api.py" ⟨true, true, "b"⟩ .nil)) none
        (scan_codebase ["r"]
          (.file "m.py" ⟨true, true, "a"⟩ (.file "api.py" ⟨true, true, "b"⟩ .nil)))).1).lookup k :=
  ⟨List.Perm.refl _, by decide,
    c8_worker_count_equiv md5stub llmOk ["r"]
      (.file "m.py" ⟨true, true, "a"⟩ (.file "api.py" ⟨true, true, "b"⟩ .nil)) none
      _ _ (List.Perm.refl _) (List.Perm.refl _) (by decide)⟩

/-! ## C6: the saved cache is exactly the run's result map -/

/-- A key present after the collection fold was either already in the
accumulator or is the relative path of one of the folded files. -/
theorem collect_fold_keys (md5hex : String → String)
    (ask_llm : String → Except String String) (rootSegs : List String)
    (cache : Cache) (k : String) :
    ∀ (fs : List SrcFile) (acc : Cache),
      (fs.foldl (collectStep md5hex ask_llm rootSegs cache) acc).lookup k ≠ none →
      acc.lookup k ≠ none ∨ k ∈ fs.map (relPathOf rootSegs) := by
  intro fs
  induction fs with
  | nil => intro acc h; exact Or.inl h
  | cons f t ih =>
      intro acc h
      rw [List.foldl_cons] at h
      rcases ih _ h with hacc | hmem
      · by_cases hpk : relPathOf rootSegs f = k
        · exact Or.inr (by rw [List.map_cons, hpk]; exact List.mem_cons_self k _)
        · left
          cases hres : analyze_file md5hex ask_llm rootSegs f cache with
          | ok r =>
              simp only [collectStep, hres] at hacc
              rwa [lookup_dictInsert_ne acc (relPathOf rootSegs f) k r
                (Ne.symm hpk)] at hacc
          | error e =>
              simp only [collectStep, hres] at hacc
              exact hacc
      · exact Or.inr (by rw [List.map_cons]; exact List.mem_cons_of_mem _ hmem)

/-- C6.  After a run, the on-disk cache document decodes to exactly the
run's result map (`save_cache` overwrites it with the results, nothing
else), and every key of that map is the relative path of a file produced
by the current scan — so entries for files absent from the scan are
dropped and no extra entries exist. -/
theorem c6_saved_cache_is_results (md5hex : String → String)
    (ask_llm : String → Except String String) (max_workers : Nat)
    (rootSegs : List String) (tree : FsTree) (disk : Option Json)
    (order : List SrcFile)
    (horder : order.Perm (scan_codebase rootSegs tree)) :
    load_cache (analyze_codebase_parallel md5hex ask_llm max_workers rootSegs tree disk order).2 =
      (analyze_codebase_parallel md5hex ask_llm max_workers rootSegs tree disk order).1 ∧
    ∀ k, ((analyze_codebase_parallel md5hex ask_llm max_workers rootSegs tree disk order).1).lookup k ≠ none →
      k ∈ (scan_codebase rootSegs tree).map (relPathOf rootSegs) := by
  constructor
  · simp only [analyze_codebase_parallel]
    simp [load_cache, save_cache, decodeCache_encodeCache]
  · intro k h
    simp only [analyze_codebase_parallel, collectResults] at h
    rcases collect_fold_keys md5hex ask_llm rootSegs (load_cache disk) k order [] h with
      hacc | hmem
    · exact absurd rfl hacc
    · exact (horder.map (relPathOf rootSegs)).mem_iff.mp hmem

/-- Witness for C6 on a concrete tree, with the completion order equal to
the scan order. -/
theorem c6_saved_cache_is_results_witness :
    ((scan_codebase ["r"] (.file "w.py" ⟨true, true, "c"⟩ .nil)).Perm
      (scan_codebase ["r"] (.file "w.py" ⟨true, true, "c"⟩ .nil))) ∧
    (load_cache (analyze_codebase_parallel md5stub llmOk 4 ["r"]
        (.file "w.py" ⟨true, true, "c"⟩ .nil) none
        (scan_codebase ["r"] (.file "w.py" ⟨true, true, "c"⟩ .nil))).2 =
      (analyze_codebase_parallel md5stub llmOk 4 ["r"]
        (.file "w.py" ⟨true, true, "c"⟩ .nil) none
        (scan_codebase ["r"] (.file "w.py" ⟨true, true, "c"⟩ .nil))).1 ∧
    ∀ k, ((analyze_codebase_parallel md5stub llmOk 4 ["r"]
        (.file "w.py" ⟨true, true, "c"⟩ .nil) none
        (scan_codebase ["r"] (.file "w.py" ⟨true, true, "c"⟩ .nil))).1).lookup k ≠ none →
      k ∈ (scan_codebase ["r"] (.file "w.py" ⟨true, true, "c"⟩ .nil)).map (relPathOf ["r"])) :=
  ⟨List.Perm.refl _,
    c6_saved_cache_is_results md5stub llmOk 4 ["r"]
      (.file "w.py" ⟨true, true, "c"⟩ .nil) none
      (scan_codebase ["r"] (.file "w.py" ⟨true, true, "c"⟩ .nil)) (List.Perm.refl _)⟩

/-! ## C7: conditional API documentation -/

/-- Every component-doc artifact lives under the `docs` directory. -/
theorem component_doc_path_pair (gen : String → String) (m : Cache)
    (pr : List String × String) (hpr : pr ∈ generate_component_docs gen m) :
    ∃ s, pr.1 = ["docs", s] := by
  rw [generate_component_docs, List.mem_filterMap] at hpr
  obtain ⟨kv, _, hf⟩ := hpr
  cases ha : kv.2.analysis with
  | none => rw [ha] at hf; exact absurd hf (by simp)
  | some a =>
      rw [ha] at hf
      dsimp only at hf
      by_cases he : a = ""
      · rw [if_pos he] at hf
        exact absurd hf (by simp)
      · rw [if_neg he] at hf
        have hpr' := Option.some.inj hf
        exact ⟨pathStem kv.1 ++ ".md", by rw [← hpr']⟩

/-- C7 counterexample.  A record whose ANALYSIS text contains the keyword
"api" (but whose path does not, and whose analysis does not contain
"endpoint") does NOT trigger API-doc generation: the produced artifacts
are only the README and the component doc, with no `API_DOCUMENTATION.md`,
although the claim's condition ("path or analysis text contains an
API-related keyword") holds at this input. -/
theorem c7_api_keyword_counterexample :
    strContainsLower "This calls an API" "api" = true ∧
    apiDocGenerated [("main.py", { analysis := some "This calls an API" })] = false ∧
    generate_all_documentation_files genStub
        [("main.py", { analysis := some "This calls an API" })] =
      [["README.md"], ["docs", "main.md"]] :=
  ⟨rfl, rfl, rfl⟩

/-- C7 as amended.  `API_DOCUMENTATION.md` is produced if and only if some
record's PATH contains "api" (case-insensitively) or its ANALYSIS text
contains "endpoint" (case-insensitively) — each keyword is checked against
its own field only, not against both. -/
theorem c7_api_doc_iff (gen : String → String) (analysis_results : Cache) :
    ["API_DOCUMENTATION.md"] ∈ generate_all_documentation_files gen analysis_results ↔
      ∃ kv ∈ analysis_results,
        (strContainsLower kv.1 "api" ||
          strContainsLower (kv.2.analysis.getD "") "endpoint") = true := by
  rw [generate_all_documentation_files]
  constructor
  · intro h
    rcases List.mem_append.mp h with h | h
    · rcases List.mem_append.mp h with h | h
      · exact absurd (List.mem_singleton.mp h) (by decide)
      · rw [List.mem_map] at h
        obtain ⟨pr, hpr, hq⟩ := h
        obtain ⟨s, hs⟩ := component_doc_path_pair gen analysis_results pr hpr
        rw [hs] at hq
        have hlen := congrArg List.length hq
        simp at hlen
    · by_cases hgen : apiDocGenerated analysis_results = true
      · have hne : apiFiles analysis_results ≠ [] := by
          intro hc
          rw [apiDocGenerated, hc] at hgen
          simp at hgen
        have hfil : (analysis_results.filter fun kv =>
            strContainsLower kv.1 "api" ||
              strContainsLower (kv.2.analysis.getD "") "endpoint") ≠ [] := by
          intro hc
          exact hne (by simp [apiFiles, hc])
        rcases List.exists_mem_of_ne_nil _ hfil with ⟨kv, hkv⟩
        obtain ⟨h1, h2⟩ := List.mem_filter.mp hkv
        exact ⟨kv, h1, h2⟩
      · rw [if_neg hgen] at h
        exact absurd h (List.not_mem_nil _)
  · rintro ⟨kv, hkv, hcond⟩
    have hmemf : kv ∈ analysis_results.filter (fun kv =>
        strContainsLower kv.1 "api" ||
          strContainsLower (kv.2.analysis.getD "") "endpoint") :=
      List.mem_filter.mpr ⟨hkv, hcond⟩
    have hne : apiFiles analysis_results ≠ [] :=
      List.ne_nil_of_mem (List.mem_map_of_mem (fun kv => kv.1) hmemf)
    have hgen : apiDocGenerated analysis_results = true := by
      rw [apiDocGenerated]
      simpa [List.isEmpty_iff] using hne
    refine List.mem_append.mpr (Or.inr ?_)
    rw [if_pos hgen]
    exact List.mem_singleton.mpr rfl

/-! ## C9: the constructor creates the cache directory -/

/-- C9.  Constructing the pipeline object immediately creates
`<root>/.rag_cache` (idempotently, as `mkdir(exist_ok=True)`), and touches
nothing else on disk: afterwards a directory exists iff it existed before
or is exactly the cache directory.  In this model the constructor is the
only entry point, so the directory exists before any scan, analysis or
cache operation can be requested. -/
theorem c9_init_creates_cache_dir (rootSegs : List String) (w : World) :
    (rootSegs ++ [".rag_cache"]) ∈ (CodebaseRAG_init rootSegs w).dirs ∧
    ∀ d, d ∈ (CodebaseRAG_init rootSegs w).dirs ↔
      (d ∈ w.dirs ∨ d = rootSegs ++ [".rag_cache"]) := by
  by_cases h : (rootSegs ++ [".rag_cache"]) ∈ w.dirs
  · refine ⟨by simp [CodebaseRAG_init, h], fun d => ?_⟩
    simp only [CodebaseRAG_init, if_pos h]
    exact ⟨fun hd => Or.inl hd, fun hd => hd.elim id (fun e => e ▸ h)⟩
  · refine ⟨by simp [CodebaseRAG_init, h], fun d => ?_⟩
    simp only [CodebaseRAG_init, if_neg h]
    rw [List.mem_append, List.mem_singleton]

/-! ## C10: unreadable files yield a two-field record and no artifacts -/

/-- C10.  On a cache miss for a file whose content read fails,
`analyze_file` returns exactly the two-field record `{error, hash}` — the
`path`, `size`, `lines`, `analysis` and `content_preview` keys are all
absent.  Records without an `analysis` key contribute no component
documentation file and no project-overview summary line: removing such an
entry from the result map leaves both artifact computations unchanged. -/
theorem c10_unreadable_record (md5hex : String → String)
    (ask_llm : String → Except String String) (rootSegs : List String)
    (f : SrcFile) (cache : Cache)
    (hmiss : cache.lookup (relPathOf rootSegs f) = none)
    (hunread : f.data.textReadable = false) :
    (analyze_file md5hex ask_llm rootSegs f cache =
      Except.ok { error := some "Could not read file", hash := some (get_file_hash md5hex f) }) ∧
    (({ error := some "Could not read file", hash := some (get_file_hash md5hex f) } : FileRecord).path = none ∧
      ({ error := some "Could not read file", hash := some (get_file_hash md5hex f) } : FileRecord).size = none ∧
      ({ error := some "Could not read file", hash := some (get_file_hash md5hex f) } : FileRecord).lines = none ∧
      ({ error := some "Could not read file", hash := some (get_file_hash md5hex f) } : FileRecord).analysis = none ∧
      ({ error := some "Could not read file", hash := some (get_file_hash md5hex f) } : FileRecord).content_preview = none) ∧
    ∀ (gen : String → String) (m₁ m₂ : Cache) (k : String) (r : FileRecord),
      r.analysis = none →
      generate_component_docs gen (m₁ ++ (k, r) :: m₂) =
        generate_component_docs gen (m₁ ++ m₂) ∧
      overview_file_summaries (m₁ ++ (k, r) :: m₂) =
        overview_file_summaries (m₁ ++ m₂) := by
  refine ⟨?_, ⟨rfl, rfl, rfl, rfl, rfl⟩, ?_⟩
  · unfold analyze_file
    simp [hmiss, hunread]
  · intro gen m₁ m₂ k r hr
    constructor
    · simp [generate_component_docs, List.filterMap_append, List.filterMap_cons, hr]
    · simp [overview_file_summaries, List.filterMap_append, List.filterMap_cons, hr]

/-- Witness for C10 at a concrete unreadable file with an empty cache. -/
theorem c10_unreadable_record_witness :
    (([] : Cache).lookup (relPathOf ["r"] ⟨["r", "u.py"], ⟨true, false, ""⟩⟩) = none) ∧
    ((⟨["r", "u.py"], ⟨true, false, ""⟩⟩ : SrcFile).data.textReadable = false) ∧
    ((analyze_file md5stub llmOk ["r"] ⟨["r", "u.py"], ⟨true, false, ""⟩⟩ [] =
      Except.ok { error := some "Could not read file", hash := some (get_file_hash md5stub ⟨["r", "u.py"], ⟨true, false, ""⟩⟩) }) ∧
    (({ error := some "Could not read file", hash := some (get_file_hash md5stub ⟨["r", "u.py"], ⟨true, false, ""⟩⟩) } : FileRecord).path = none ∧
      ({ error := some "Could not read file", hash := some (get_file_hash md5stub ⟨["r", "u.py"], ⟨true, false, ""⟩⟩) } : FileRecord).size = none ∧
      ({ error := some "Could not read file", hash := some (get_file_hash md5stub ⟨["r", "u.py"], ⟨true, false, ""⟩⟩) } : FileRecord).lines = none ∧
      ({ error := some "Could not read file", hash := some (get_file_hash md5stub ⟨["r", "u.py"], ⟨true, false, ""⟩⟩) } : FileRecord).analysis = none ∧
      ({ error := some "Could not read file", hash := some (get_file_hash md5stub ⟨["r", "u.py"], ⟨true, false, ""⟩⟩) } : FileRecord).content_preview = none) ∧
    ∀ (gen : String → String) (m₁ m₂ : Cache) (k : String) (r : FileRecord),
      r.analysis = none →
      generate_component_docs gen (m₁ ++ (k, r) :: m₂) =
        generate_component_docs gen (m₁ ++ m₂) ∧
      overview_file_summaries (m₁ ++ (k, r) :: m₂) =
        overview_file_summaries (m₁ ++ m₂)) :=
  ⟨rfl, rfl,
    c10_unreadable_record md5stub llmOk ["r"] ⟨["r", "u.py"], ⟨true, false, ""⟩⟩ [] rfl rfl⟩
